import Mathlib

/-!
# AtomicWallet — verification of the ledger core

Shallow embedding of `src/main.py` (FastAPI + SQLAlchemy wallet service).

Modelling decisions:
* Database rows become Lean structures; the SQLAlchemy session plus the
  durable store become a single `DBState`.  A handler is a function
  `DBState → Request → DBState × Outcome`; the Python `try/except` with
  `db.rollback()` means every failing handler returns the pre-call state,
  which we model by returning the unmodified `DBState` on the failure
  branches (in the source no mutation has happened before each `raise`).
* Autoincrement primary keys become explicit counters
  (`next_wallet_id`, `next_txn_id`).
* `Transaction.timestamp` (wall-clock `datetime.utcnow`) carries no
  ledger-correctness content and is omitted from the record.
* Python floats are modelled as exact rationals; `int(x)` is truncation
  toward zero (`pyInt`).  Concrete counterexample inputs below use only
  dyadic rationals on which IEEE-754 double arithmetic is exact, so the
  model and the Python runtime agree on them.
* `query.filter(Wallet.user_name == name).first()` returns the first row
  with that name (`findWallet`); an in-session mutation of that row is
  `updateBalance`, which rewrites the first matching row.  When sender
  and receiver names coincide, SQLAlchemy's identity map hands both
  queries the same object, which the sequential first-match updates
  reproduce.
-/

namespace AtomicWallet

/-- Python `int(q)`: truncation of a rational toward zero
(`Int.tdiv` truncates toward zero; `q.den > 0`). -/
def pyInt (q : ℚ) : Int := q.num.tdiv q.den

/-- Row of table `wallets` (src/main.py lines 20-25). -/
structure Wallet where
  id : Nat
  user_name : String
  balance_cents : Int
deriving Repr, DecidableEq

/-- Row of table `transactions` (src/main.py lines 27-33); the wall-clock
`timestamp` column is omitted. -/
structure Transaction where
  id : Nat
  sender_id : Nat
  receiver_id : Nat
  amount_cents : Int
deriving Repr, DecidableEq

/-- Pydantic schema `TransferRequest` (src/main.py lines 39-46).
`amount_dollars` is a Python float, modelled as an exact rational. -/
structure TransferRequest where
  sender_username : String
  receiver_username : String
  amount_dollars : ℚ
deriving Repr, DecidableEq

/-- `TransferRequest.amount_cents` property (src/main.py lines 44-46):
`int(self.amount_dollars * 100)`. -/
def TransferRequest.amount_cents (r : TransferRequest) : Int :=
  pyInt (r.amount_dollars * 100)

/-- The durable database state: both tables plus autoincrement counters. -/
structure DBState where
  wallets : List Wallet
  transactions : List Transaction
  next_wallet_id : Nat
  next_txn_id : Nat
deriving Repr, DecidableEq

/-- `db.query(Wallet).filter(Wallet.user_name == name).first()`. -/
def findWallet : List Wallet → String → Option Wallet
  | [], _ => none
  | w :: ws, name =>
      if w.user_name = name then some w else findWallet ws name

/-- In-session mutation `row.balance_cents = f(row.balance_cents)` of the
row `first()` returned: rewrites the first row whose `user_name` matches. -/
def updateBalance : List Wallet → String → (Int → Int) → List Wallet
  | [], _, _ => []
  | w :: ws, name, f =>
      if w.user_name = name then
        { w with balance_cents := f w.balance_cents } :: ws
      else
        w :: updateBalance ws name f

/-- Outcome of `POST /create_wallet`. -/
inductive CreateOutcome
  | alreadyExists
  | created
deriving Repr, DecidableEq

/-- `create_wallet` endpoint (src/main.py lines 71-82): if the user
exists, return a message without mutation; otherwise insert a wallet
with a 10000-cent starting balance. -/
def create_wallet (db : DBState) (username : String) :
    DBState × CreateOutcome :=
  match findWallet db.wallets username with
  | some _ => (db, .alreadyExists)
  | none =>
      ({ db with
          wallets := db.wallets ++ [⟨db.next_wallet_id, username, 10000⟩],
          next_wallet_id := db.next_wallet_id + 1 },
       .created)

/-- Outcome of `POST /transfer`: HTTP 200 with the transaction id,
HTTP 404 (user not found), HTTP 400 (insufficient funds), or the
pydantic validation rejection of a non-positive `amount_dollars`
(`Field(..., gt=0)`, HTTP 422). -/
inductive TransferOutcome
  | success (tx_id : Nat)
  | notFound
  | insufficientFunds
  | invalidAmount
deriving Repr, DecidableEq

/-- `transfer_funds` handler body (src/main.py lines 95-140).
Both rows are fetched (and locked) first, sender then receiver; each
`raise` lands in the `except` whose `db.rollback()` restores the
pre-call state, so failure branches return `db` unchanged. -/
def transfer_funds (db : DBState) (req : TransferRequest) :
    DBState × TransferOutcome :=
  match findWallet db.wallets req.sender_username,
        findWallet db.wallets req.receiver_username with
  | some sender, some receiver =>
      if sender.balance_cents < req.amount_cents then
        (db, .insufficientFunds)
      else
        let ws1 := updateBalance db.wallets req.sender_username
            (fun b => b - req.amount_cents)
        let ws2 := updateBalance ws1 req.receiver_username
            (fun b => b + req.amount_cents)
        let txn : Transaction :=
          ⟨db.next_txn_id, sender.id, receiver.id, req.amount_cents⟩
        ({ db with
            wallets := ws2,
            transactions := db.transactions ++ [txn],
            next_txn_id := db.next_txn_id + 1 },
         .success txn.id)
  | _, _ => (db, .notFound)

/-- The `/transfer` endpoint: pydantic validates `amount_dollars > 0`
(src/main.py line 42) before the handler body runs. -/
def post_transfer (db : DBState) (req : TransferRequest) :
    DBState × TransferOutcome :=
  if 0 < req.amount_dollars then transfer_funds db req
  else (db, .invalidAmount)

/-- The order in which `transfer_funds` acquires the two row locks
(src/main.py lines 104-106): sender first, then receiver — the call's
argument order. -/
def lockAcquisitionOrder (req : TransferRequest) : List String :=
  [req.sender_username, req.receiver_username]

/-- Modelled from the spec (§4.3 step 1): the canonical lock order the
spec requires — lexicographic order of the two account names,
independent of which is sender and which is receiver. -/
def canonicalLockOrder (a b : String) : List String :=
  if a < b then [a, b] else [b, a]

/-- Two two-lock acquisition sequences circularly wait when each holds
its first lock and needs the other's first lock as its second. -/
def circularWait (o1 o2 : List String) : Bool :=
  match o1, o2 with
  | [a1, b1], [a2, b2] => a1 = b2 && a2 = b1 && a1 ≠ a2
  | _, _ => false

/-- An operation arriving at the service: wallet creation or transfer. -/
inductive Op
  | create (username : String)
  | transfer (req : TransferRequest)

/-- State reached after one operation (failures roll back to the
pre-call state). -/
def applyOp (db : DBState) : Op → DBState
  | .create u => (create_wallet db u).1
  | .transfer r => (post_transfer db r).1

/-- State reached after a sequence of operations. -/
def runOps (db : DBState) : List Op → DBState
  | [] => db
  | op :: ops => runOps (applyOp db op) ops

/-- Sum of all wallet balances. -/
def totalBalance (db : DBState) : Int :=
  (db.wallets.map Wallet.balance_cents).sum

/-- Whether one operation created a wallet (and hence paid the
10000-cent creation bonus). -/
def createBonusCount (db : DBState) : Op → Nat
  | .create u => if (create_wallet db u).2 = .created then 1 else 0
  | .transfer _ => 0

/-- Number of creations in the sequence that actually created a wallet. -/
def createdCount (db : DBState) : List Op → Nat
  | [] => 0
  | op :: ops => createBonusCount db op + createdCount (applyOp db op) ops

/-- All balances are non-negative. -/
def nonNegBalances (db : DBState) : Prop :=
  ∀ w ∈ db.wallets, 0 ≤ w.balance_cents

/-! ## Arithmetic facts about `pyInt` (Python `int()` truncation) -/

theorem pyInt_eq_floor (q : ℚ) (h : 0 ≤ q) : pyInt q = ⌊q⌋ := by
  rw [pyInt, Rat.floor_def,
    Int.tdiv_eq_ediv (Rat.num_nonneg.mpr h) (Int.natCast_nonneg _)]

theorem pyInt_eq_ceil (q : ℚ) (h : q ≤ 0) : pyInt q = ⌈q⌉ := by
  have hn : q.num ≤ 0 := Rat.num_nonpos.mpr h
  have h1 : ⌈q⌉ = -⌊-q⌋ := by rw [Int.floor_neg]; ring
  rw [pyInt, h1, Rat.floor_def, Rat.neg_num, Rat.neg_den,
    ← Int.tdiv_eq_ediv (by omega) (Int.natCast_nonneg _), Int.neg_tdiv, neg_neg]

/-- Truncation of an explicit fraction: the computable form used to
evaluate `amount_cents` on concrete inputs. -/
theorem pyInt_intCast_div_natCast (n : ℤ) (d : ℕ) :
    pyInt ((n : ℚ) / (d : ℚ)) = n.tdiv d := by
  rcases le_or_lt 0 n with hn | hn
  · rw [pyInt_eq_floor _ (by positivity), Rat.floor_intCast_div_natCast,
      Int.tdiv_eq_ediv hn (Int.natCast_nonneg _)]
  · have hq : (n : ℚ) / (d : ℚ) ≤ 0 :=
      div_nonpos_iff.mpr (Or.inr ⟨by exact_mod_cast hn.le, by positivity⟩)
    have hneg : -((n : ℚ) / (d : ℚ)) = ((-n : ℤ) : ℚ) / (d : ℚ) := by
      push_cast; ring
    rw [pyInt_eq_ceil _ hq, show ⌈(n : ℚ) / (d : ℚ)⌉ = -⌊-((n : ℚ) / (d : ℚ))⌋ by
        rw [Int.floor_neg]; ring,
      hneg, Rat.floor_intCast_div_natCast,
      ← Int.tdiv_eq_ediv (by omega) (Int.natCast_nonneg _), Int.neg_tdiv, neg_neg]

/-- `amount_cents` in closed form over the reduced fraction. -/
theorem amount_cents_eq (r : TransferRequest) :
    r.amount_cents = (r.amount_dollars.num * 100).tdiv r.amount_dollars.den := by
  have h : r.amount_dollars * 100
      = ((r.amount_dollars.num * 100 : ℤ) : ℚ) / ((r.amount_dollars.den : ℕ) : ℚ) := by
    conv_lhs => rw [← Rat.num_div_den r.amount_dollars]
    push_cast
    ring
  rw [TransferRequest.amount_cents, h, pyInt_intCast_div_natCast]

/-- A request that passed pydantic validation (`amount_dollars > 0`) has a
non-negative internal amount — but not necessarily a positive one. -/
theorem amount_cents_nonneg (r : TransferRequest) (h : 0 < r.amount_dollars) :
    0 ≤ r.amount_cents := by
  rw [TransferRequest.amount_cents, pyInt_eq_floor _ (by positivity)]
  exact Int.floor_nonneg.mpr (by positivity)

/-! ## Structural facts about `findWallet` and `updateBalance` -/

theorem findWallet_mem {ws : List Wallet} {name : String} {w : Wallet}
    (h : findWallet ws name = some w) : w ∈ ws := by
  induction ws with
  | nil => simp [findWallet] at h
  | cons a as ih =>
    rw [findWallet] at h
    by_cases ha : a.user_name = name
    · rw [if_pos ha] at h
      injection h with h
      subst h
      exact List.mem_cons_self _ _
    · rw [if_neg ha] at h
      exact List.mem_cons_of_mem a (ih h)

/-- `updateBalance` rewrites exactly the row that `findWallet` returns:
the list splits around that row, everything before it has a different
name, and only that row's balance changes. -/
theorem updateBalance_split (ws : List Wallet) (name : String) (f : Int → Int)
    (w : Wallet) (h : findWallet ws name = some w) :
    ∃ l1 l2, ws = l1 ++ w :: l2 ∧ (∀ x ∈ l1, x.user_name ≠ name) ∧
      w.user_name = name ∧
      updateBalance ws name f =
        l1 ++ { w with balance_cents := f w.balance_cents } :: l2 := by
  induction ws with
  | nil => simp [findWallet] at h
  | cons a as ih =>
    rw [findWallet] at h
    by_cases ha : a.user_name = name
    · rw [if_pos ha] at h
      injection h with h
      subst h
      exact ⟨[], as, rfl, by simp, ha, by rw [updateBalance, if_pos ha]; rfl⟩
    · rw [if_neg ha] at h
      obtain ⟨l1, l2, hsplit, hl1, hw, hupd⟩ := ih h
      refine ⟨a :: l1, l2, by rw [hsplit]; rfl, ?_, hw, ?_⟩
      · intro x hx
        rcases List.mem_cons.mp hx with rfl | hx
        · exact ha
        · exact hl1 x hx
      · rw [updateBalance, if_neg ha, hupd]
        rfl

theorem sum_updateBalance (ws : List Wallet) (name : String) (f : Int → Int)
    (w : Wallet) (h : findWallet ws name = some w) :
    ((updateBalance ws name f).map Wallet.balance_cents).sum
      = (ws.map Wallet.balance_cents).sum + (f w.balance_cents - w.balance_cents) := by
  obtain ⟨l1, l2, h1, -, -, h4⟩ := updateBalance_split ws name f w h
  subst h1
  rw [h4]
  simp [List.sum_append]
  ring

theorem findWallet_updateBalance_isSome (ws : List Wallet) (name m : String)
    (f : Int → Int) :
    (findWallet (updateBalance ws name f) m).isSome = (findWallet ws m).isSome := by
  induction ws with
  | nil => rfl
  | cons a as ih =>
    rw [updateBalance]
    by_cases ha : a.user_name = name
    · rw [if_pos ha, findWallet, findWallet]
      by_cases hm : a.user_name = m <;> simp [hm]
    · rw [if_neg ha, findWallet, findWallet]
      by_cases hm : a.user_name = m <;> simp [hm, ih]

/-- Every row of the updated table is either an untouched old row or the
balance-rewrite of the row `findWallet` located. -/
theorem mem_updateBalance (ws : List Wallet) (name : String) (f : Int → Int)
    (w' : Wallet) (h : w' ∈ updateBalance ws name f) :
    w' ∈ ws ∨ ∃ w, findWallet ws name = some w ∧
      w' = { w with balance_cents := f w.balance_cents } := by
  induction ws with
  | nil => simp [updateBalance] at h
  | cons a as ih =>
    rw [updateBalance] at h
    by_cases ha : a.user_name = name
    · rw [if_pos ha] at h
      rcases List.mem_cons.mp h with rfl | h
      · exact Or.inr ⟨a, by rw [findWallet, if_pos ha], rfl⟩
      · exact Or.inl (List.mem_cons_of_mem a h)
    · rw [if_neg ha] at h
      rcases List.mem_cons.mp h with rfl | h
      · exact Or.inl (List.mem_cons_self _ _)
      · rcases ih h with h | ⟨w, hw, he⟩
        · exact Or.inl (List.mem_cons_of_mem a h)
        · exact Or.inr ⟨w, by rw [findWallet, if_neg ha]; exact hw, he⟩

/-- `updateBalance` never changes a row's `id` or `user_name`. -/
theorem updateBalance_map_id_name (ws : List Wallet) (name : String)
    (f : Int → Int) :
    (updateBalance ws name f).map (fun w => (w.id, w.user_name))
      = ws.map (fun w => (w.id, w.user_name)) := by
  induction ws with
  | nil => rfl
  | cons a as ih =>
    rw [updateBalance]
    by_cases ha : a.user_name = name
    · rw [if_pos ha]
      simp
    · rw [if_neg ha]
      simp [ih]

/-- Rows selected by a name-based predicate that excludes the updated
name pass through `updateBalance` unchanged. -/
theorem updateBalance_filter (ws : List Wallet) (name : String)
    (f : Int → Int) (p : Wallet → Bool)
    (hp : ∀ w, w.user_name = name → p w = false)
    (hbal : ∀ w b, p { w with balance_cents := b } = p w) :
    (updateBalance ws name f).filter p = ws.filter p := by
  induction ws with
  | nil => rfl
  | cons a as ih =>
    rw [updateBalance]
    by_cases ha : a.user_name = name
    · rw [if_pos ha, List.filter_cons, List.filter_cons, hbal, hp a ha]
      simp
    · rw [if_neg ha, List.filter_cons, List.filter_cons, ih]

/-- Debiting then crediting the same name by the same amount is the
identity — the aliasing that a self-transfer exercises. -/
theorem updateBalance_sub_add_cancel (ws : List Wallet) (name : String) (a : Int) :
    updateBalance (updateBalance ws name (fun b => b - a)) name
      (fun b => b + a) = ws := by
  induction ws with
  | nil => rfl
  | cons w rest ih =>
    rw [updateBalance]
    by_cases h : w.user_name = name
    · rw [if_pos h, updateBalance, if_pos h]
      have hb : w.balance_cents - a + a = w.balance_cents := by ring
      rw [hb]
    · rw [if_neg h, updateBalance, if_neg h, ih]

/-! ## Case analysis of the transfer endpoint -/

/-- Outcome dichotomy of `POST /transfer`: either validation passed, both
rows were found, the balance check passed, and the handler committed the
debit/credit plus one ledger row — or the call failed and (after
`db.rollback()`) the state is exactly the pre-call state. -/
theorem post_transfer_cases (db : DBState) (req : TransferRequest) :
    (0 < req.amount_dollars ∧
      ∃ s r, findWallet db.wallets req.sender_username = some s ∧
        findWallet db.wallets req.receiver_username = some r ∧
        ¬ s.balance_cents < req.amount_cents ∧
        post_transfer db req =
          ({ db with
              wallets := updateBalance
                (updateBalance db.wallets req.sender_username
                  (fun b => b - req.amount_cents))
                req.receiver_username (fun b => b + req.amount_cents),
              transactions := db.transactions
                ++ [⟨db.next_txn_id, s.id, r.id, req.amount_cents⟩],
              next_txn_id := db.next_txn_id + 1 },
           .success db.next_txn_id)) ∨
    ((post_transfer db req).1 = db ∧
      ∀ t, (post_transfer db req).2 ≠ .success t) := by
  by_cases hv : 0 < req.amount_dollars
  · have hpt : post_transfer db req = transfer_funds db req := by
      rw [post_transfer, if_pos hv]
    rcases hs : findWallet db.wallets req.sender_username with - | s
    · right
      have : transfer_funds db req = (db, .notFound) := by
        rw [transfer_funds, hs]
      rw [hpt, this]
      exact ⟨rfl, by intro t h; cases h⟩
    rcases hr : findWallet db.wallets req.receiver_username with - | r
    · right
      have : transfer_funds db req = (db, .notFound) := by
        rw [transfer_funds, hs, hr]
      rw [hpt, this]
      exact ⟨rfl, by intro t h; cases h⟩
    by_cases hb : s.balance_cents < req.amount_cents
    · right
      have heval : transfer_funds db req = (db, .insufficientFunds) := by
        rw [transfer_funds, hs, hr]
        dsimp only
        rw [if_pos hb]
      rw [hpt, heval]
      exact ⟨rfl, by intro t h; cases h⟩
    · left
      refine ⟨hv, s, r, rfl, rfl, hb, ?_⟩
      rw [hpt, transfer_funds, hs, hr]
      dsimp only
      rw [if_neg hb]
  · right
    have : post_transfer db req = (db, .invalidAmount) := by
      rw [post_transfer, if_neg hv]
    rw [this]
    exact ⟨rfl, by intro t h; cases h⟩

/-- Balance-sum effect of one operation: a committed creation adds the
10000-cent bonus, everything else leaves the sum unchanged. -/
theorem totalBalance_applyOp (db : DBState) (op : Op) :
    totalBalance (applyOp db op)
      = totalBalance db + 10000 * (createBonusCount db op : ℤ) := by
  cases op with
  | create u =>
    show totalBalance (create_wallet db u).1
        = totalBalance db + 10000 * ((if (create_wallet db u).2 = .created then 1 else 0 : ℕ) : ℤ)
    rcases hu : findWallet db.wallets u with - | w
    · have hcw : create_wallet db u =
          ({ db with
              wallets := db.wallets ++ [⟨db.next_wallet_id, u, 10000⟩],
              next_wallet_id := db.next_wallet_id + 1 }, .created) := by
        rw [create_wallet, hu]
      rw [hcw]
      simp [totalBalance]
    · have hcw : create_wallet db u = (db, .alreadyExists) := by
        rw [create_wallet, hu]
      rw [hcw]
      simp [totalBalance]
  | transfer req =>
    show totalBalance (post_transfer db req).1 = totalBalance db + 10000 * ((0 : ℕ) : ℤ)
    rcases post_transfer_cases db req with ⟨-, s, r, hs, hr, -, heq⟩ | ⟨hdb, -⟩
    · rw [heq]
      have hr1 : (findWallet (updateBalance db.wallets req.sender_username
          (fun b => b - req.amount_cents)) req.receiver_username).isSome = true := by
        rw [findWallet_updateBalance_isSome, hr]
        rfl
      obtain ⟨r1, hr1⟩ := Option.isSome_iff_exists.mp hr1
      show ((updateBalance (updateBalance db.wallets req.sender_username
              (fun b => b - req.amount_cents)) req.receiver_username
              (fun b => b + req.amount_cents)).map Wallet.balance_cents).sum
          = totalBalance db + 10000 * ((0 : ℕ) : ℤ)
      rw [sum_updateBalance _ _ _ _ hr1, sum_updateBalance _ _ _ _ hs,
        totalBalance]
      push_cast
      ring
    · rw [hdb]
      push_cast
      ring

/-! ## Concrete fixtures

Wallet table with three users, request payloads used to exercise the
endpoints.  `reqTiny`'s amount `1/128` dollars is the dyadic rational
`0.0078125`, exactly representable as an IEEE-754 double with an exact
product `0.78125` when multiplied by `100`, so the rational model agrees
with the Python runtime on it. -/

def wAlice : Wallet := ⟨1, "alice", 10000⟩

def wBob : Wallet := ⟨2, "bob", 10000⟩

def wCarol : Wallet := ⟨3, "carol", 300⟩

def db0 : DBState := ⟨[wAlice, wBob, wCarol], [], 4, 1⟩

def reqTen : TransferRequest := ⟨"alice", "bob", 10⟩

def reqTiny : TransferRequest := ⟨"alice", "bob", 1/128⟩

def reqSelf : TransferRequest := ⟨"alice", "alice", 10⟩

def reqGhost : TransferRequest := ⟨"dave", "alice", 10⟩

def reqNeg : TransferRequest := ⟨"alice", "bob", -1⟩

theorem reqTen_cents : reqTen.amount_cents = 1000 := by
  have h : reqTen.amount_dollars * 100 = ((1000 : ℤ) : ℚ) / ((1 : ℕ) : ℚ) := by
    show (10 : ℚ) * 100 = _
    norm_num
  rw [TransferRequest.amount_cents, h, pyInt_intCast_div_natCast]
  decide

theorem reqTiny_cents : reqTiny.amount_cents = 0 := by
  have h : reqTiny.amount_dollars * 100 = ((25 : ℤ) : ℚ) / ((32 : ℕ) : ℚ) := by
    show (1 / 128 : ℚ) * 100 = _
    norm_num
  rw [TransferRequest.amount_cents, h, pyInt_intCast_div_natCast]
  decide

theorem reqSelf_cents : reqSelf.amount_cents = 1000 := by
  have h : reqSelf.amount_dollars * 100 = ((1000 : ℤ) : ℚ) / ((1 : ℕ) : ℚ) := by
    show (10 : ℚ) * 100 = _
    norm_num
  rw [TransferRequest.amount_cents, h, pyInt_intCast_div_natCast]
  decide

theorem post_transfer_db0_reqTen :
    post_transfer db0 reqTen =
      (⟨[⟨1, "alice", 9000⟩, ⟨2, "bob", 11000⟩, ⟨3, "carol", 300⟩],
        [⟨1, 1, 2, 1000⟩], 4, 2⟩, .success 1) := by
  rw [post_transfer, if_pos (show (0 : ℚ) < reqTen.amount_dollars by norm_num [reqTen]),
    transfer_funds,
    show findWallet db0.wallets reqTen.sender_username = some wAlice from rfl,
    show findWallet db0.wallets reqTen.receiver_username = some wBob from rfl]
  dsimp only
  rw [reqTen_cents]
  decide

theorem post_transfer_db0_reqTiny :
    post_transfer db0 reqTiny =
      (⟨[⟨1, "alice", 10000⟩, ⟨2, "bob", 10000⟩, ⟨3, "carol", 300⟩],
        [⟨1, 1, 2, 0⟩], 4, 2⟩, .success 1) := by
  rw [post_transfer, if_pos (show (0 : ℚ) < reqTiny.amount_dollars by norm_num [reqTiny]),
    transfer_funds,
    show findWallet db0.wallets reqTiny.sender_username = some wAlice from rfl,
    show findWallet db0.wallets reqTiny.receiver_username = some wBob from rfl]
  dsimp only
  rw [reqTiny_cents]
  decide

/-! ## Claim theorems -/

/-- C1: the spec requires the two per-account locks to be acquired in a
canonical order over the account names, never in sender/receiver
argument order, so that swapped concurrent transfers cannot circularly
wait.  The code (src/main.py lines 104-106) locks sender first, then
receiver — argument order.  At the concrete pair alice→bob / bob→alice
the two code-order acquisitions circularly wait (each first lock is the
other's second), whereas the spec's canonical order gives both transfers
the identical acquisition sequence, and identical sequences can never
circularly wait; the code's order also differs from the canonical order
at this input. -/
theorem lock_order_argument_dependent :
    circularWait (lockAcquisitionOrder ⟨"alice", "bob", 10⟩)
      (lockAcquisitionOrder ⟨"bob", "alice", 10⟩) = true ∧
    canonicalLockOrder "alice" "bob" = canonicalLockOrder "bob" "alice" ∧
    (∀ o : List String, circularWait o o = false) ∧
    lockAcquisitionOrder ⟨"bob", "alice", 10⟩ = ["bob", "alice"] ∧
    canonicalLockOrder "bob" "alice" = ["alice", "bob"] := by
  have hab : canonicalLockOrder "alice" "bob" = ["alice", "bob"] := by
    rw [canonicalLockOrder]
    simp
    decide
  have hba : canonicalLockOrder "bob" "alice" = ["alice", "bob"] := by
    rw [canonicalLockOrder]
    simp
    decide
  refine ⟨by decide, by rw [hab, hba], ?_, rfl, hba⟩
  intro o
  rcases o with - | ⟨a, - | ⟨b, - | t⟩⟩ <;> simp [circularWait]

/-- C2: a transfer that fails with `AccountNotFound` (HTTP 404, either
named account missing, checked after the rows are fetched under lock) or
`InsufficientFunds` (HTTP 400) leaves the post-call state equal to the
pre-call state: both accounts' balances (indeed the whole wallet table)
and the ledger length are unchanged. -/
theorem transfer_failure_noop (db : DBState) (req : TransferRequest)
    (h : (post_transfer db req).2 = .notFound ∨
         (post_transfer db req).2 = .insufficientFunds) :
    (post_transfer db req).1 = db ∧
    (post_transfer db req).1.wallets = db.wallets ∧
    (post_transfer db req).1.transactions.length = db.transactions.length := by
  rcases post_transfer_cases db req with ⟨-, s, r, -, -, -, heq⟩ | ⟨hdb, -⟩
  · rw [heq] at h
    rcases h with h | h <;> simp at h
  · exact ⟨hdb, by rw [hdb], by rw [hdb]⟩

theorem transfer_failure_noop_witness :
    ((post_transfer db0 reqGhost).2 = .notFound ∨
     (post_transfer db0 reqGhost).2 = .insufficientFunds) ∧
    (post_transfer db0 reqGhost).1 = db0 ∧
    (post_transfer db0 reqGhost).1.wallets = db0.wallets ∧
    (post_transfer db0 reqGhost).1.transactions.length
      = db0.transactions.length := by
  have h : (post_transfer db0 reqGhost).2 = .notFound := by decide
  exact ⟨Or.inl h, transfer_failure_noop db0 reqGhost (Or.inl h)⟩

/-- C3: conservation — over any sequence of operations (each transfer
either commits or is a no-op, each creation either pays the fixed bonus
or is a no-op), the final sum of balances equals the initial sum plus
10000 cents per wallet actually created.  In particular a sequence of
committed transfers alone preserves the sum exactly: each one debits the
sender and credits the receiver by the same `amount_cents`. -/
theorem conservation (db : DBState) (ops : List Op) :
    totalBalance (runOps db ops)
      = totalBalance db + 10000 * (createdCount db ops : ℤ) := by
  induction ops generalizing db with
  | nil => simp [runOps, createdCount]
  | cons op ops ih =>
    rw [runOps, createdCount, ih, totalBalance_applyOp]
    push_cast
    ring

/-- C4: non-negativity is preserved by every committed operation: if all
balances are non-negative before a creation or transfer, they are
non-negative after it.  A transfer only commits when the sender holds at
least `amount_cents` (and the validated amount is itself non-negative);
a fresh wallet starts at 10000 cents. -/
theorem non_negativity (db : DBState) (op : Op) (h : nonNegBalances db) :
    nonNegBalances (applyOp db op) := by
  cases op with
  | create u =>
    show nonNegBalances (create_wallet db u).1
    rcases hu : findWallet db.wallets u with - | w
    · have hcw : create_wallet db u =
          ({ db with
              wallets := db.wallets ++ [⟨db.next_wallet_id, u, 10000⟩],
              next_wallet_id := db.next_wallet_id + 1 }, .created) := by
        rw [create_wallet, hu]
      rw [hcw]
      intro w' hw'
      dsimp at hw'
      rcases List.mem_append.mp hw' with hw' | hw'
      · exact h w' hw'
      · rw [List.mem_singleton.mp hw']
        norm_num
    · have hcw : create_wallet db u = (db, .alreadyExists) := by
        rw [create_wallet, hu]
      rw [hcw]
      exact h
  | transfer req =>
    show nonNegBalances (post_transfer db req).1
    rcases post_transfer_cases db req with ⟨hv, s, r, hs, hr, hb, heq⟩ | ⟨hdb, -⟩
    · rw [heq]
      have ha : 0 ≤ req.amount_cents := amount_cents_nonneg req hv
      intro w' hw'
      dsimp at hw'
      rcases mem_updateBalance _ _ _ _ hw' with hw1 | ⟨x, hx, hxe⟩
      · rcases mem_updateBalance _ _ _ _ hw1 with hw2 | ⟨y, hy, hye⟩
        · exact h w' hw2
        · rw [hs] at hy
          injection hy with hy
          subst hy
          rw [hye]
          dsimp
          omega
      · have hx' : x ∈ updateBalance db.wallets req.sender_username
            (fun b => b - req.amount_cents) := findWallet_mem hx
        have h0 : 0 ≤ x.balance_cents := by
          rcases mem_updateBalance _ _ _ _ hx' with hx2 | ⟨y, hy, hye⟩
          · exact h x hx2
          · rw [hs] at hy
            injection hy with hy
            subst hy
            rw [hye]
            dsimp
            omega
        rw [hxe]
        dsimp
        omega
    · rw [hdb]
      exact h

theorem non_negativity_witness :
    nonNegBalances db0 ∧ nonNegBalances (applyOp db0 (.create "dave")) := by
  have h : nonNegBalances db0 := by
    show ∀ w ∈ db0.wallets, 0 ≤ w.balance_cents
    decide
  exact ⟨h, non_negativity db0 (.create "dave") h⟩

/-- C5 counterexample: the transfer request for `1/128` dollars
(`0.0078125`, exactly representable as a double, with exact product
`0.78125` under IEEE arithmetic) has a strictly positive
`amount_dollars`, so pydantic validation passes — yet the internal
integer amount the engine operates on is `int(0.78125) = 0`, not
strictly positive, and the transfer proceeds all the way to commit. -/
theorem positive_dollars_zero_cents_counterexample :
    0 < reqTiny.amount_dollars ∧ reqTiny.amount_cents = 0 ∧
    (post_transfer db0 reqTiny).2 = .success 1 := by
  refine ⟨by norm_num [reqTiny], reqTiny_cents, ?_⟩
  rw [post_transfer_db0_reqTiny]

/-- C5 amended: a request whose `amount_dollars` is not strictly
positive is rejected as `invalidAmount` by validation before the handler
body runs, leaving the store untouched; a transfer that proceeds past
this precondition operates on a non-negative — but possibly zero —
internal integer amount. -/
theorem invalid_amount_rejected (db : DBState) (req : TransferRequest) :
    (req.amount_dollars ≤ 0 → post_transfer db req = (db, .invalidAmount)) ∧
    (0 < req.amount_dollars → 0 ≤ req.amount_cents) := by
  constructor
  · intro hle
    rw [post_transfer, if_neg (not_lt.mpr hle)]
  · exact amount_cents_nonneg req

theorem invalid_amount_rejected_witness :
    (reqNeg.amount_dollars ≤ 0 ∧
      post_transfer db0 reqNeg = (db0, .invalidAmount)) ∧
    (0 < reqTen.amount_dollars ∧ 0 ≤ reqTen.amount_cents) := by
  have h1 : reqNeg.amount_dollars ≤ 0 := by norm_num [reqNeg]
  have h2 : (0 : ℚ) < reqTen.amount_dollars := by norm_num [reqTen]
  exact ⟨⟨h1, (invalid_amount_rejected db0 reqNeg).1 h1⟩,
    ⟨h2, (invalid_amount_rejected db0 reqTen).2 h2⟩⟩

/-- C6 counterexample: the committed `1/128`-dollar transfer appends a
Transfer Record whose `amount_cents` is `0` — a successfully committed
transfer whose ledger amount is not a positive integer. -/
theorem committed_record_zero_amount_counterexample :
    (post_transfer db0 reqTiny).2 = .success 1 ∧
    (post_transfer db0 reqTiny).1.transactions.map Transaction.amount_cents
      = [0] := by
  rw [post_transfer_db0_reqTiny]
  exact ⟨rfl, rfl⟩

/-- C6 amended: exactly one Transfer Record is appended to the ledger
per successfully committed transfer, its `amount_cents` equals the
internal transferred amount in minor units and is non-negative (it can
be zero for sub-cent display amounts); no record is ever created for a
failed or rejected transfer. -/
theorem ledger_append_on_success (db : DBState) (req : TransferRequest) :
    (∀ t, (post_transfer db req).2 = .success t →
      ∃ txn : Transaction,
        (post_transfer db req).1.transactions = db.transactions ++ [txn] ∧
        txn.amount_cents = req.amount_cents ∧ 0 ≤ txn.amount_cents) ∧
    ((∀ t, (post_transfer db req).2 ≠ .success t) →
      (post_transfer db req).1.transactions = db.transactions) := by
  rcases post_transfer_cases db req with ⟨hv, s, r, -, -, -, heq⟩ | ⟨hdb, hno⟩
  · constructor
    · intro t ht
      exact ⟨⟨db.next_txn_id, s.id, r.id, req.amount_cents⟩, by rw [heq],
        rfl, amount_cents_nonneg req hv⟩
    · intro hno
      exact ((hno db.next_txn_id) (by rw [heq])).elim
  · constructor
    · intro t ht
      exact absurd ht (hno t)
    · intro h2
      rw [hdb]

theorem ledger_append_on_success_witness :
    (post_transfer db0 reqTen).2 = .success 1 ∧
    ∃ txn : Transaction,
      (post_transfer db0 reqTen).1.transactions = db0.transactions ++ [txn] ∧
      txn.amount_cents = reqTen.amount_cents ∧ 0 ≤ txn.amount_cents := by
  have h : (post_transfer db0 reqTen).2 = .success 1 := by
    rw [post_transfer_db0_reqTen]
  exact ⟨h, (ledger_append_on_success db0 reqTen).1 1 h⟩

/-- C7: wallet creation is idempotent — if a wallet with the requested
name already exists, the call returns the state unchanged (no error,
`alreadyExists` message); if the name is fresh, exactly one wallet is
appended, carrying the fixed 10000-cent starting balance and the next
wallet id. -/
theorem create_wallet_idempotent (db : DBState) (name : String) :
    (∀ w, findWallet db.wallets name = some w →
      create_wallet db name = (db, .alreadyExists)) ∧
    (findWallet db.wallets name = none →
      create_wallet db name =
        ({ db with
            wallets := db.wallets ++ [⟨db.next_wallet_id, name, 10000⟩],
            next_wallet_id := db.next_wallet_id + 1 }, .created)) := by
  constructor
  · intro w hw
    rw [create_wallet, hw]
  · intro hn
    rw [create_wallet, hn]

theorem create_wallet_idempotent_witness :
    (findWallet db0.wallets "alice" = some wAlice ∧
      create_wallet db0 "alice" = (db0, .alreadyExists)) ∧
    (findWallet db0.wallets "dave" = none ∧
      create_wallet db0 "dave" =
        ({ db0 with
            wallets := db0.wallets ++ [⟨4, "dave", 10000⟩],
            next_wallet_id := 5 }, .created)) :=
  ⟨⟨rfl, (create_wallet_idempotent db0 "alice").1 wAlice rfl⟩,
   ⟨rfl, (create_wallet_idempotent db0 "dave").2 rfl⟩⟩

/-- C9: self-transfer — when sender and receiver name the same existing
account whose balance covers the amount, the transfer succeeds, the
wallet table (hence the account's balance) is unchanged because the
debit and credit hit the same row, and exactly one Transfer Record with
`sender_id = receiver_id` is appended. -/
theorem self_transfer (db : DBState) (req : TransferRequest) (w : Wallet)
    (hself : req.receiver_username = req.sender_username)
    (hw : findWallet db.wallets req.sender_username = some w)
    (hv : 0 < req.amount_dollars)
    (hbal : req.amount_cents ≤ w.balance_cents) :
    post_transfer db req =
      ({ db with
          wallets := db.wallets,
          transactions := db.transactions
            ++ [⟨db.next_txn_id, w.id, w.id, req.amount_cents⟩],
          next_txn_id := db.next_txn_id + 1 },
       .success db.next_txn_id) := by
  rw [post_transfer, if_pos hv, transfer_funds, hself, hw]
  dsimp only
  rw [if_neg (not_lt.mpr hbal), updateBalance_sub_add_cancel]

theorem self_transfer_witness :
    reqSelf.receiver_username = reqSelf.sender_username ∧
    findWallet db0.wallets reqSelf.sender_username = some wAlice ∧
    0 < reqSelf.amount_dollars ∧
    reqSelf.amount_cents ≤ wAlice.balance_cents ∧
    post_transfer db0 reqSelf =
      ({ db0 with
          wallets := db0.wallets,
          transactions := db0.transactions
            ++ [⟨db0.next_txn_id, wAlice.id, wAlice.id, reqSelf.amount_cents⟩],
          next_txn_id := db0.next_txn_id + 1 },
       .success db0.next_txn_id) := by
  have hbal : reqSelf.amount_cents ≤ wAlice.balance_cents := by
    rw [reqSelf_cents]
    decide
  have hv : (0 : ℚ) < reqSelf.amount_dollars := by norm_num [reqSelf]
  exact ⟨rfl, rfl, hv, hbal, self_transfer db0 reqSelf wAlice rfl rfl hv hbal⟩

/-- C10: frame property — a committed transfer preserves every wallet's
`id` and `user_name` (in table order), and every wallet named neither by
the sender nor by the receiver passes through entirely unchanged,
balance included. -/
theorem transfer_frame (db : DBState) (req : TransferRequest) (t : Nat)
    (h : (post_transfer db req).2 = .success t) :
    ((post_transfer db req).1.wallets.map (fun w => (w.id, w.user_name))
      = db.wallets.map (fun w => (w.id, w.user_name))) ∧
    ((post_transfer db req).1.wallets.filter
        (fun w => w.user_name != req.sender_username &&
                  w.user_name != req.receiver_username)
      = db.wallets.filter
        (fun w => w.user_name != req.sender_username &&
                  w.user_name != req.receiver_username)) := by
  rcases post_transfer_cases db req with ⟨-, s, r, -, -, -, heq⟩ | ⟨-, hno⟩
  · rw [heq]
    dsimp only
    constructor
    · rw [updateBalance_map_id_name, updateBalance_map_id_name]
    · rw [updateBalance_filter _ _ _ _
          (by intro w hwn; simp [hwn]) (by intro w b; rfl),
        updateBalance_filter _ _ _ _
          (by intro w hwn; simp [hwn]) (by intro w b; rfl)]
  · exact absurd h (hno t)

theorem transfer_frame_witness :
    (post_transfer db0 reqTen).2 = .success 1 ∧
    ((post_transfer db0 reqTen).1.wallets.map (fun w => (w.id, w.user_name))
      = db0.wallets.map (fun w => (w.id, w.user_name))) ∧
    ((post_transfer db0 reqTen).1.wallets.filter
        (fun w => w.user_name != reqTen.sender_username &&
                  w.user_name != reqTen.receiver_username)
      = db0.wallets.filter
        (fun w => w.user_name != reqTen.sender_username &&
                  w.user_name != reqTen.receiver_username)) := by
  have h : (post_transfer db0 reqTen).2 = .success 1 := by
    rw [post_transfer_db0_reqTen]
  exact ⟨h, transfer_frame db0 reqTen 1 h⟩

end AtomicWallet
